import Mathlib

/-!
# Verification of the Advection-Diffusion integrand (IFEM-AdvectionDiffusion)

Shallow embedding of `src/AdvectionDiffusion.h` and, for the method bodies that
the repository declares there but implements elsewhere, of the behaviour the
design document ascribes to them.  Real numbers stand in for C++ `double`
values; the IFEM `utl::vector` (1-based indexing, `size()`, `resize`) is
modelled by a `List ℝ` accessed through 1-based helpers.
-/

namespace AD

/-- Embeds `enum Stabilization { NONE, SUPG, GLS, MS }` from
`AdvectionDiffusion.h`. -/
inductive Stabilization where
  | NONE
  | SUPG
  | GLS
  | MS
  deriving DecidableEq, Repr

/-- Embeds the problem configuration of the `AdvectionDiffusion` integrand:
the data members of the class in `AdvectionDiffusion.h` that the integrand
reads (`stab`, `Cinv`, `order`, the diffusivity from `props`, and the optional
field pointers `Uad`, `reaction`, `source`).  The calibration constants `c1`,
`c2` of the tau formula are carried here as well; the spec leaves their values
open, so they are parameters of the model.  `n` is the spatial dimension. -/
structure Config (n : ℕ) where
  stab : Stabilization
  kappa : ℝ
  Cinv : ℝ
  order : ℕ
  c1 : ℝ
  c2 : ℝ
  Uad : Option ((Fin n → ℝ) → Fin n → ℝ)
  reaction : Option ((Fin n → ℝ) → ℝ)
  source : Option ((Fin n → ℝ) → ℝ)

/-- Embeds `void setCinv(double Cinv_) { Cinv = Cinv_; }` from
`AdvectionDiffusion.h`. -/
def setCinv {n : ℕ} (c : ℝ) (cfg : Config n) : Config n := { cfg with Cinv := c }

/-- Embeds `double getCinv() const { return Cinv; }` from
`AdvectionDiffusion.h`. -/
def getCinv {n : ℕ} (cfg : Config n) : ℝ := cfg.Cinv

/-- Embeds `void setStabilization(Stabilization s) { stab = s; }` from
`AdvectionDiffusion.h`. -/
def setStabilization {n : ℕ} (s : Stabilization) (cfg : Config n) : Config n :=
  { cfg with stab := s }

/-- Embeds `Stabilization getStabilization() const { return stab; }` from
`AdvectionDiffusion.h`. -/
def getStabilization {n : ℕ} (cfg : Config n) : Stabilization := cfg.stab

/-- Embeds `size_t getNoFields(int fld = 1) const { return fld > 1 ? nsd : 1; }`
from `AdvectionDiffusion.h` (`nsd` is the spatial dimension `n`).  The C++
`int` argument is modelled by `ℤ`. -/
def getNoFields {n : ℕ} (_cfg : Config n) (fld : ℤ) : ℕ := if fld > 1 then n else 1

/-- Embeds `void setElements(size_t els) { tauE.resize(els); }` from
`AdvectionDiffusion.h`.  `utl::vector::resize` keeps the existing prefix and
zero-fills any newly created entries. -/
def setElements (els : ℕ) (tauE : List ℝ) : List ℝ :=
  tauE.take els ++ List.replicate (els - tauE.length) 0

/-- Embeds `double getElementTau(size_t e) const { return e > tauE.size() ? 0 : tauE(e); }`
from `AdvectionDiffusion.h`.  `utl::vector::operator()` is 1-based, so
`tauE(e)` reads the list entry at offset `e - 1`. -/
def getElementTau (tauE : List ℝ) (e : ℕ) : ℝ :=
  if e > tauE.length then 0 else tauE.getD (e - 1) 0

/-- Embeds the 1-based store into the tau vector (`tauE(iEl) = tau`) performed
by the element finalizer. -/
def storeTau (tauE : List ℝ) (e : ℕ) (v : ℝ) : List ℝ := tauE.set (e - 1) v

/-- Modelled from the spec: the clamp/epsilon guarding the divisions by the
element size in the tau computation ("Must guard division against hk → 0");
the spec fixes no value, so a small positive constant is used. -/
noncomputable def tauEps : ℝ := 1 / 10 ^ 10

/-- Modelled from the spec: the quantity under the inverse square root of the
stabilization-parameter formula of §4.2,
`C1·(2|U|/hk)² + C2·Cinv·p⁴·(κ/hk²)²`, with the element size clamped below by
`tauEps`.  `c1`, `c2` are the calibrated constants the spec leaves open. -/
noncomputable def tauDenom (c1 c2 uNorm hk kappa Cinv : ℝ) (p : ℕ) : ℝ :=
  c1 * (2 * |uNorm| / max hk tauEps) ^ 2
    + c2 * Cinv * (p : ℝ) ^ 4 * (kappa / (max hk tauEps) ^ 2) ^ 2

open Classical in
/-- Modelled from the spec: `ElementInfo::getTau`, whose body is not part of
the sources; §4.2 gives `τ = (C1·(2|U|/hk)² + C2·Cinv·p⁴·(κ/hk²)²)^(−1/2)`
with the degenerate-case policy `τ = 0` when `|U| = 0` and `κ = 0`, and the
division by the element size guarded by a clamp.  `uNorm` is the velocity
magnitude recovered from the accumulated `Cv` data. -/
noncomputable def getTau (c1 c2 uNorm hk kappa Cinv : ℝ) (p : ℕ) : ℝ :=
  if uNorm = 0 ∧ kappa = 0 then 0
  else 1 / Real.sqrt (tauDenom c1 c2 uNorm hk kappa Cinv p)

/-- Embeds the per-quadrature-point finite-element data consumed by the
evaluators: shape values `N`, gradients `dNdX`, shape Laplacians `lapN`
(second-derivative data used by the GLS/MS residual operator), and the
jacobian-times-weight factor `detJxW`. -/
structure FiniteElement (nen n : ℕ) where
  N : Fin nen → ℝ
  dNdX : Fin nen → Fin n → ℝ
  lapN : Fin nen → ℝ
  detJxW : ℝ

/-- Embeds `AdvectionDiffusion::ElementInfo` from `AdvectionDiffusion.h`: the
base element matrix `A` and vector `b` (the `ElmMats` part), the stabilized
matrix `eMs` and vector `eSs`, the velocity+area accumulator `Cv` (split into
its velocity part `CvU` and measure part `CvA`), the element size `hk` and the
element index `iEl`. -/
structure ElementInfo (nen n : ℕ) where
  A : Fin nen → Fin nen → ℝ
  b : Fin nen → ℝ
  eMs : Fin nen → Fin nen → ℝ
  eSs : Fin nen → ℝ
  CvU : Fin n → ℝ
  CvA : ℝ
  hk : ℝ
  iEl : ℕ

/-- Embeds the fresh element-local state handed out by `getLocalIntegral` and
initialized for one element: zero matrices and vectors, with the element size
and global element index taken from the element data. -/
def initEI (nen n : ℕ) (hk0 : ℝ) (iEl0 : ℕ) : ElementInfo nen n :=
  ⟨fun _ _ => 0, fun _ => 0, fun _ _ => 0, fun _ => 0, fun _ => 0, 0, hk0, iEl0⟩

/-- Value of the optional advection field at a point (zero when unset). -/
def fieldU {n : ℕ} (cfg : Config n) (X : Fin n → ℝ) : Fin n → ℝ :=
  match cfg.Uad with
  | some u => u X
  | none => fun _ => 0

/-- Value of the optional reaction field at a point (zero when unset). -/
def fieldR {n : ℕ} (cfg : Config n) (X : Fin n → ℝ) : ℝ :=
  match cfg.reaction with
  | some r => r X
  | none => 0

/-- Value of the optional source field at a point (zero when unset). -/
def fieldF {n : ℕ} (cfg : Config n) (X : Fin n → ℝ) : ℝ :=
  match cfg.source with
  | some f => f X
  | none => 0

/-- Modelled from the spec: the Galerkin accumulation of §4.1 performed by
`evalInt` at one interior point — diffusion `κ·∇φi·∇φj`, advection
`φi(U·∇φj)` and reaction `φi·r·φj` into the base matrix, source `φi·f` into
the base vector, all weighted by the jacobian-times-weight factor. -/
noncomputable def galerkinUpdate {nen n : ℕ} (cfg : Config n)
    (fe : FiniteElement nen n) (X : Fin n → ℝ) (s : ElementInfo nen n) :
    ElementInfo nen n :=
  { s with
    A := fun i j => s.A i j + fe.detJxW *
      (cfg.kappa * (∑ k, fe.dNdX i k * fe.dNdX j k)
        + fe.N i * (∑ k, fieldU cfg X k * fe.dNdX j k)
        + fe.N i * fieldR cfg X * fe.N j),
    b := fun i => s.b i + fe.detJxW * (fe.N i * fieldF cfg X) }

/-- Advection test factor `U·∇φi` used by the stabilized terms. -/
noncomputable def advTest {nen n : ℕ} (cfg : Config n) (fe : FiniteElement nen n)
    (X : Fin n → ℝ) (i : Fin nen) : ℝ :=
  ∑ k, fieldU cfg X k * fe.dNdX i k

/-- Modelled from the spec: the differential-operator residual `L(φj)` of
§4.1 — SUPG tests with the advection operator only; GLS with the full operator
(diffusion + advection + reaction); MS adds a fine-scale closure term on top
of GLS, whose exact form the spec leaves open (§9), modelled here as an
additional fine-scale advective closure. -/
noncomputable def resOp {nen n : ℕ} (cfg : Config n) (fe : FiniteElement nen n)
    (X : Fin n → ℝ) (j : Fin nen) : ℝ :=
  match cfg.stab with
  | Stabilization.NONE => 0
  | Stabilization.SUPG => advTest cfg fe X j
  | Stabilization.GLS =>
      -cfg.kappa * fe.lapN j + advTest cfg fe X j + fieldR cfg X * fe.N j
  | Stabilization.MS =>
      -cfg.kappa * fe.lapN j + advTest cfg fe X j + fieldR cfg X * fe.N j
        + advTest cfg fe X j

/-- Modelled from the spec: the stabilized accumulation of §4.1 — the
residual-based term `(U·∇φi)·L(φj)` goes into `eMs`, its load counterpart
`(U·∇φi)·f` into `eSs`, and velocity-magnitude/measure data into `Cv`; the
`τ` weight is applied later by the finalizer. -/
noncomputable def stabUpdate {nen n : ℕ} (cfg : Config n)
    (fe : FiniteElement nen n) (X : Fin n → ℝ) (s : ElementInfo nen n) :
    ElementInfo nen n :=
  { s with
    eMs := fun i j => s.eMs i j + fe.detJxW * (advTest cfg fe X i * resOp cfg fe X j),
    eSs := fun i => s.eSs i + fe.detJxW * (advTest cfg fe X i * fieldF cfg X),
    CvU := fun k => s.CvU k + fieldU cfg X k * fe.detJxW,
    CvA := s.CvA + fe.detJxW }

/-- Modelled from the spec: `AdvectionDiffusion::evalInt`, whose body is not
part of the sources; §4.1 — returns the C++ boolean result together with the
updated element-local state: if the active stabilization mode requires the
advection field and it is unset, it fails with `false` and the state
untouched; otherwise it accumulates the Galerkin terms, plus the stabilized
terms when stabilization is active. -/
noncomputable def evalInt {nen n : ℕ} (cfg : Config n) (fe : FiniteElement nen n)
    (X : Fin n → ℝ) (s : ElementInfo nen n) : Bool × ElementInfo nen n :=
  if cfg.stab = Stabilization.NONE then (true, galerkinUpdate cfg fe X s)
  else if cfg.Uad.isNone then (false, s)
  else (true, stabUpdate cfg fe X (galerkinUpdate cfg fe X s))

/-- Embeds the driver loop over the interior quadrature points of one element:
the external assembly calls `evalInt` per point and aborts on a `false`
return. -/
noncomputable def runPts {nen n : ℕ} (cfg : Config n) :
    List (FiniteElement nen n × (Fin n → ℝ)) → ElementInfo nen n →
    Bool × ElementInfo nen n
  | [], s => (true, s)
  | pt :: pts, s =>
      match evalInt cfg pt.1 pt.2 s with
      | (true, t) => runPts cfg pts t
      | (false, t) => (false, t)

/-- Modelled from the spec: the τ-weighted additive blend of the stabilized
matrix/vector into the base matrix/vector performed by the element finalizer
(§4.3). -/
noncomputable def blendStab {nen n : ℕ} (tau : ℝ) (s : ElementInfo nen n) :
    ElementInfo nen n :=
  { s with
    A := fun i j => s.A i j + tau * s.eMs i j,
    b := fun i => s.b i + tau * s.eSs i }

/-- Modelled from the spec: the velocity magnitude recovered from the
accumulated velocity+measure data `Cv` (norm of the accumulated velocity
divided by the accumulated measure). -/
noncomputable def elemVel {nen n : ℕ} (s : ElementInfo nen n) : ℝ :=
  Real.sqrt (∑ k, s.CvU k ^ 2) / s.CvA

/-- Modelled from the spec: `AdvectionDiffusion::finalizeElement`, whose body
is not part of the sources; §4.3 — fails if the element index exceeds the
declared element count; otherwise computes τ via `getTau`, blends `eMs`/`eSs`
into the base matrix/vector weighted by τ, and persists τ into the tau vector
at the 1-based index `iEl`. -/
noncomputable def finalizeElement {nen n : ℕ} (cfg : Config n) (tauE : List ℝ)
    (s : ElementInfo nen n) : Bool × ElementInfo nen n × List ℝ :=
  if s.iEl > tauE.length then (false, s, tauE)
  else
    (true,
      blendStab (getTau cfg.c1 cfg.c2 (elemVel s) s.hk cfg.kappa cfg.Cinv cfg.order) s,
      storeTau tauE s.iEl
        (getTau cfg.c1 cfg.c2 (elemVel s) s.hk cfg.kappa cfg.Cinv cfg.order))

/-- Embeds the configuration of the nested `WeakDirichlet` integrand of
`AdvectionDiffusion.h`: model constant `CBI`, adjoint factor `gamma`, the
diffusivity from `props`, and the optional advection / flux field pointers. -/
structure WDConfig (n : ℕ) where
  CBI : ℝ
  gamma : ℝ
  kappa : ℝ
  Uad : Option ((Fin n → ℝ) → Fin n → ℝ)
  flux : Option ((Fin n → ℝ) → ℝ)

/-- Embeds `virtual bool hasInteriorTerms() const { return false; }` of
`AdvectionDiffusion::WeakDirichlet` in `AdvectionDiffusion.h`. -/
def WDConfig.hasInteriorTerms {n : ℕ} (_w : WDConfig n) : Bool := false

/-- Modelled from the spec: `WeakDirichlet::evalBou`, whose body is not part
of the sources; §4.4 — requires the advection and flux fields, else fails with
`false` and no state change; otherwise accumulates the Nitsche penalty
`(CBI/h)·φiφj`, consistency `−κ·φi(∇φj·n)` and adjoint `−γ·κ·(∇φi·n)φj`
terms into the matrix and the flux load `φi·g(X)` into the vector.  `h` is
the local boundary measure estimated from the element corners. -/
noncomputable def wdEvalBou {nen n : ℕ} (w : WDConfig n) (fe : FiniteElement nen n)
    (X normal : Fin n → ℝ) (h : ℝ) (s : ElementInfo nen n) :
    Bool × ElementInfo nen n :=
  match w.Uad, w.flux with
  | some _, some g =>
    (true,
      { s with
        A := fun i j => s.A i j + fe.detJxW *
          (w.CBI / h * (fe.N i * fe.N j)
            - w.kappa * (fe.N i * (∑ k, fe.dNdX j k * normal k))
            - w.gamma * w.kappa * ((∑ k, fe.dNdX i k * normal k) * fe.N j)),
        b := fun i => s.b i + fe.detJxW * (fe.N i * g X) })
  | _, _ => (false, s)

/-- Concrete `WeakDirichlet` configuration with adjoint factor `γ = 0`. -/
def wdGamma0 : WDConfig 1 :=
  ⟨4, 0, 1, some (fun _ => fun _ => 0), some (fun _ => 0)⟩

/-- Concrete `WeakDirichlet` configuration with adjoint factor `γ = 1`. -/
def wdGamma1 : WDConfig 1 :=
  ⟨4, 1, 1, some (fun _ => fun _ => 0), some (fun _ => 0)⟩

/-- Concrete one-point boundary finite-element data (two nodes, one spatial
dimension) with generic, non-symmetric shape data. -/
def feC8 : FiniteElement 2 1 := ⟨![1, 2], ![![3], ![5]], ![0, 0], 1⟩

/-- Concrete interior finite-element data with a single node. -/
def feOne : FiniteElement 1 1 := ⟨![1], ![![0]], ![0], 1⟩

/-- Concrete configuration with SUPG stabilization and an advection field. -/
def cfgSUPG : Config 1 :=
  ⟨Stabilization.SUPG, 1, 1, 1, 1, 1, some (fun _ => fun _ => 0), none, none⟩

/-- Concrete configuration with SUPG stabilization and no advection field. -/
def cfgSUPGNoU : Config 1 :=
  ⟨Stabilization.SUPG, 1, 1, 1, 1, 1, none, none, none⟩

/-- Concrete unstabilized configuration. -/
def cfgNone : Config 1 :=
  ⟨Stabilization.NONE, 1, 1, 1, 1, 1, none, none, none⟩

/-! ## Theorems -/

/-- Auxiliary: the length of the tau vector after `setElements`. -/
theorem setElements_length (els : ℕ) (tauE : List ℝ) :
    (setElements els tauE).length = els := by
  simp only [setElements, List.length_append, List.length_take, List.length_replicate]
  omega

/-- Auxiliary: reading back the 1-based slot just written. -/
theorem getElementTau_storeTau (tauE : List ℝ) (e : ℕ) (v : ℝ)
    (h1 : 1 ≤ e) (h2 : e ≤ tauE.length) :
    getElementTau (storeTau tauE e v) e = v := by
  have hlt : e - 1 < tauE.length := by omega
  simp only [getElementTau, storeTau, List.length_set]
  rw [if_neg (by omega)]
  rw [List.getD_eq_getElem?_getD, List.getElem?_set_self (by simpa using hlt)]
  simp

/-- The epsilon clamp is positive. -/
theorem tauEps_pos : (0 : ℝ) < tauEps := by norm_num [tauEps]

/-- The clamped element size is positive. -/
theorem max_tauEps_pos (hk : ℝ) : (0 : ℝ) < max hk tauEps :=
  lt_of_lt_of_le tauEps_pos (le_max_right _ _)

/-- The quantity under the square root shrinks as the element size grows. -/
theorem tauDenom_anti (c1 c2 u kappa Cinv : ℝ) (p : ℕ) (hk1 hk2 : ℝ)
    (hc1 : 0 ≤ c1) (hc2 : 0 ≤ c2) (hC : 0 ≤ Cinv) (h12 : hk1 ≤ hk2) :
    tauDenom c1 c2 u hk2 kappa Cinv p ≤ tauDenom c1 c2 u hk1 kappa Cinv p := by
  have h0 : (0 : ℝ) < max hk1 tauEps := max_tauEps_pos hk1
  have hh : max hk1 tauEps ≤ max hk2 tauEps := max_le_max h12 le_rfl
  simp only [tauDenom, div_pow]
  gcongr

/-- The quantity under the square root is positive away from the degenerate
`|U| = 0 ∧ κ = 0` case, given positive calibration data. -/
theorem tauDenom_pos (c1 c2 u kappa Cinv : ℝ) (p : ℕ) (hk : ℝ)
    (hc1 : 0 < c1) (hc2 : 0 < c2) (hC : 0 < Cinv) (hp : 1 ≤ p)
    (hdeg : ¬(u = 0 ∧ kappa = 0)) :
    0 < tauDenom c1 c2 u hk kappa Cinv p := by
  have h0 : (0 : ℝ) < max hk tauEps := max_tauEps_pos hk
  have hp' : (0 : ℝ) < (p : ℝ) := by exact_mod_cast Nat.lt_of_lt_of_le Nat.zero_lt_one hp
  rcases not_and_or.mp hdeg with hu | hk0
  · have hu' : (0 : ℝ) < |u| := abs_pos.mpr hu
    have h1 : 0 < c1 * (2 * |u| / max hk tauEps) ^ 2 := by positivity
    have h2 : 0 ≤ c2 * Cinv * (p : ℝ) ^ 4 * (kappa / (max hk tauEps) ^ 2) ^ 2 := by
      positivity
    exact add_pos_of_pos_of_nonneg h1 h2
  · have hkk : (0 : ℝ) < (kappa / (max hk tauEps) ^ 2) ^ 2 :=
      pow_two_pos_of_ne_zero (div_ne_zero hk0 (pow_ne_zero 2 h0.ne'))
    have h2 : 0 < c2 * Cinv * (p : ℝ) ^ 4 * (kappa / (max hk tauEps) ^ 2) ^ 2 := by
      positivity
    have h1 : 0 ≤ c1 * (2 * |u| / max hk tauEps) ^ 2 := by positivity
    exact add_pos_of_nonneg_of_pos h1 h2

/-- C3 counterexample: with `c1 = c2 = Cinv = 1`, `p = 1`, velocity magnitude
`2` and `κ = 0`, growing the element size from `1` to `2` strictly increases
the returned tau, so `getTau` is not non-increasing in `hk`. -/
theorem getTau_not_nonincreasing :
    getTau 1 1 2 1 0 1 1 < getTau 1 1 2 2 0 1 1 := by
  have hmax1 : max (1 : ℝ) tauEps = 1 := max_eq_left (by norm_num [tauEps])
  have hmax2 : max (2 : ℝ) tauEps = 2 := max_eq_left (by norm_num [tauEps])
  have hd1 : tauDenom 1 1 2 1 0 1 1 = 16 := by
    simp only [tauDenom, hmax1]; rw [abs_of_pos (by norm_num)]; norm_num
  have hd2 : tauDenom 1 1 2 2 0 1 1 = 4 := by
    simp only [tauDenom, hmax2]; rw [abs_of_pos (by norm_num)]; norm_num
  have hs16 : Real.sqrt 16 = 4 := by
    rw [show (16 : ℝ) = 4 ^ 2 by norm_num]; exact Real.sqrt_sq (by norm_num)
  have hs4 : Real.sqrt 4 = 2 := by
    rw [show (4 : ℝ) = 2 ^ 2 by norm_num]; exact Real.sqrt_sq (by norm_num)
  simp only [getTau]
  rw [if_neg (by norm_num), if_neg (by norm_num), hd1, hd2, hs16, hs4]
  norm_num

/-- C3 (amended): for fixed `κ`, `Cinv`, order `p` and velocity magnitude,
the tau returned by `getTau` is non-decreasing (not non-increasing) as the
element size `hk` increases, given positive calibration constants and `Cinv`
and `p ≥ 1`; and when the velocity magnitude is `0` and `κ = 0`, the returned
tau is `0`. -/
theorem getTau_monotone_and_degenerate :
    (∀ (c1 c2 u kappa Cinv hk1 hk2 : ℝ) (p : ℕ),
      0 < c1 → 0 < c2 → 0 < Cinv → 1 ≤ p → hk1 ≤ hk2 →
      getTau c1 c2 u hk1 kappa Cinv p ≤ getTau c1 c2 u hk2 kappa Cinv p) ∧
    (∀ (c1 c2 hk Cinv : ℝ) (p : ℕ), getTau c1 c2 0 hk 0 Cinv p = 0) := by
  constructor
  · intro c1 c2 u kappa Cinv hk1 hk2 p hc1 hc2 hC hp h12
    simp only [getTau]
    by_cases hdeg : u = 0 ∧ kappa = 0
    · rw [if_pos hdeg, if_pos hdeg]
    · rw [if_neg hdeg, if_neg hdeg]
      have hD2 : 0 < tauDenom c1 c2 u hk2 kappa Cinv p :=
        tauDenom_pos c1 c2 u kappa Cinv p hk2 hc1 hc2 hC hp hdeg
      have hanti := tauDenom_anti c1 c2 u kappa Cinv p hk1 hk2
        hc1.le hc2.le hC.le h12
      exact one_div_le_one_div_of_le (Real.sqrt_pos.mpr hD2) (Real.sqrt_le_sqrt hanti)
  · intro c1 c2 hk Cinv p
    simp [getTau]

/-- Witness for C3 (amended) at concrete inputs. -/
theorem getTau_monotone_and_degenerate_witness :
    getTau 1 1 2 1 0 1 1 ≤ getTau 1 1 2 3 0 1 1 ∧ getTau 1 1 0 5 0 1 1 = 0 :=
  ⟨getTau_monotone_and_degenerate.1 1 1 2 0 1 1 3 1 (by norm_num) (by norm_num)
    (by norm_num) (by norm_num) (by norm_num),
   getTau_monotone_and_degenerate.2 1 1 5 1 1⟩

/-- C4: the tau computation guards its divisions by the element size with the
positive clamp `tauEps`: at `hk = 0` it computes exactly the value it computes
at `hk = tauEps`, and (away from the degenerate zero-velocity zero-diffusivity
case, given positive calibration data) the value returned at `hk = 0` is a
positive finite real, not the result of a division by zero. -/
theorem getTau_hk_guard :
    0 < tauEps ∧
    (∀ (c1 c2 u kappa Cinv : ℝ) (p : ℕ),
      getTau c1 c2 u 0 kappa Cinv p = getTau c1 c2 u tauEps kappa Cinv p) ∧
    (∀ (c1 c2 u kappa Cinv : ℝ) (p : ℕ),
      0 < c1 → 0 < c2 → 0 < Cinv → 1 ≤ p → ¬(u = 0 ∧ kappa = 0) →
      0 < getTau c1 c2 u 0 kappa Cinv p) := by
  refine ⟨tauEps_pos, ?_, ?_⟩
  · intro c1 c2 u kappa Cinv p
    have hmax : max (0 : ℝ) tauEps = max tauEps tauEps := by
      rw [max_self, max_eq_right tauEps_pos.le]
    simp only [getTau, tauDenom, hmax]
  · intro c1 c2 u kappa Cinv p hc1 hc2 hC hp hdeg
    simp only [getTau]
    rw [if_neg hdeg]
    exact one_div_pos.mpr (Real.sqrt_pos.mpr
      (tauDenom_pos c1 c2 u kappa Cinv p 0 hc1 hc2 hC hp hdeg))

/-- Witness for C4 at concrete inputs. -/
theorem getTau_hk_guard_witness :
    getTau 1 1 2 0 0 1 1 = getTau 1 1 2 tauEps 0 1 1 ∧
    0 < getTau 1 1 2 0 0 1 1 :=
  ⟨getTau_hk_guard.2.1 1 1 2 0 1 1,
   getTau_hk_guard.2.2 1 1 2 0 1 1 (by norm_num) (by norm_num) (by norm_num)
    (by norm_num) (by norm_num)⟩

/-- C1: after `setElements els`, `getElementTau e` returns the neutral default
`0` for every index `e` strictly greater than the declared element count `els`
(no error is signalled), and for every in-range 1-based index `e` it returns
the tau value stored for that element. -/
theorem getElementTau_out_of_range_default (els e : ℕ) (tauE : List ℝ) (v : ℝ) :
    (e > els → getElementTau (setElements els tauE) e = 0) ∧
    (1 ≤ e → e ≤ els → getElementTau (storeTau (setElements els tauE) e v) e = v) := by
  constructor
  · intro hgt
    rw [getElementTau, if_pos (by rw [setElements_length]; exact hgt)]
  · intro h1 h2
    exact getElementTau_storeTau _ _ _ h1 (by rw [setElements_length]; exact h2)

/-- Witness for C1 at `els = 2`, `e = 3` (out of range) and `e = 2` (in range). -/
theorem getElementTau_out_of_range_default_witness :
    getElementTau (setElements 2 []) 3 = 0 ∧
    getElementTau (storeTau (setElements 2 []) 2 (5 : ℝ)) 2 = 5 :=
  ⟨(getElementTau_out_of_range_default 2 3 [] 0).1 (by norm_num),
   (getElementTau_out_of_range_default 2 2 [] 5).2 (by norm_num) (by norm_num)⟩

/-- C2: `setCinv` followed by `getCinv` returns the value just set, and
`setStabilization` followed by `getStabilization` returns the mode just set,
for every object, real value and stabilization mode. -/
theorem set_get_roundtrip {n : ℕ} (cfg : Config n) (c : ℝ) (s : Stabilization) :
    getCinv (setCinv c cfg) = c ∧ getStabilization (setStabilization s cfg) = s :=
  ⟨rfl, rfl⟩

/-- C9: `WeakDirichlet::hasInteriorTerms` returns `false` for every
`WeakDirichlet` object, so it declares no interior contribution. -/
theorem hasInteriorTerms_false {n : ℕ} (w : WDConfig n) :
    w.hasInteriorTerms = false := rfl

/-- C10: `getNoFields` returns `1` for the primary field set (`fld ≤ 1`,
including the default `fld = 1`) and the spatial dimension `n` for the
secondary field set (`fld > 1`), for every object regardless of configuration. -/
theorem getNoFields_cases {n : ℕ} (cfg : Config n) (fld : ℤ) :
    (fld ≤ 1 → getNoFields cfg fld = 1) ∧ (fld > 1 → getNoFields cfg fld = n) := by
  constructor
  · intro h; rw [getNoFields, if_neg (by omega)]
  · intro h; rw [getNoFields, if_pos h]

/-- Auxiliary: `evalInt` in an unstabilized pass performs exactly the
Galerkin accumulation. -/
theorem evalInt_eq_none {nen n : ℕ} (cfg : Config n) (fe : FiniteElement nen n)
    (X : Fin n → ℝ) (s : ElementInfo nen n) (h : cfg.stab = Stabilization.NONE) :
    evalInt cfg fe X s = (true, galerkinUpdate cfg fe X s) := by
  simp only [evalInt]
  rw [if_pos h]

/-- Auxiliary: `evalInt` in a stabilized pass with the advection field set
performs the Galerkin accumulation followed by the stabilized accumulation. -/
theorem evalInt_eq_stab {nen n : ℕ} (cfg : Config n) (fe : FiniteElement nen n)
    (X : Fin n → ℝ) (s : ElementInfo nen n) (u : (Fin n → ℝ) → Fin n → ℝ)
    (hs : cfg.stab ≠ Stabilization.NONE) (hU : cfg.Uad = some u) :
    evalInt cfg fe X s = (true, stabUpdate cfg fe X (galerkinUpdate cfg fe X s)) := by
  simp only [evalInt]
  rw [if_neg hs, if_neg (by simp [hU])]

/-- Auxiliary: a successful point evaluation advances the point loop. -/
theorem runPts_cons_true {nen n : ℕ} (cfg : Config n)
    (pt : FiniteElement nen n × (Fin n → ℝ))
    (pts : List (FiniteElement nen n × (Fin n → ℝ))) (s t : ElementInfo nen n)
    (h : evalInt cfg pt.1 pt.2 s = (true, t)) :
    runPts cfg (pt :: pts) s = runPts cfg pts t := by
  simp only [runPts, h]

/-- Auxiliary: over any interior-point sequence, a stabilized pass with the
advection field set and the corresponding unstabilized pass both succeed,
build identical base matrices and vectors, and the unstabilized pass leaves
the stabilized accumulators untouched. -/
theorem runPts_base_invariant {nen n : ℕ} (cfg : Config n)
    (u : (Fin n → ℝ) → Fin n → ℝ) (hU : cfg.Uad = some u)
    (hs : cfg.stab ≠ Stabilization.NONE) :
    ∀ (pts : List (FiniteElement nen n × (Fin n → ℝ))) (s1 s2 : ElementInfo nen n),
      s1.A = s2.A → s1.b = s2.b →
      (runPts cfg pts s1).1 = true ∧
      (runPts { cfg with stab := Stabilization.NONE } pts s2).1 = true ∧
      (runPts cfg pts s1).2.A =
        (runPts { cfg with stab := Stabilization.NONE } pts s2).2.A ∧
      (runPts cfg pts s1).2.b =
        (runPts { cfg with stab := Stabilization.NONE } pts s2).2.b ∧
      (runPts { cfg with stab := Stabilization.NONE } pts s2).2.eMs = s2.eMs ∧
      (runPts { cfg with stab := Stabilization.NONE } pts s2).2.eSs = s2.eSs := by
  intro pts
  induction pts with
  | nil => intro s1 s2 hA hb; exact ⟨rfl, rfl, hA, hb, rfl, rfl⟩
  | cons pt pts ih =>
    intro s1 s2 hA hb
    have e1 := evalInt_eq_stab cfg pt.1 pt.2 s1 u hs hU
    have e2 := evalInt_eq_none { cfg with stab := Stabilization.NONE } pt.1 pt.2 s2 rfl
    rw [runPts_cons_true cfg pt pts s1 _ e1,
      runPts_cons_true { cfg with stab := Stabilization.NONE } pt pts s2 _ e2]
    have hA' : (stabUpdate cfg pt.1 pt.2 (galerkinUpdate cfg pt.1 pt.2 s1)).A =
        (galerkinUpdate { cfg with stab := Stabilization.NONE } pt.1 pt.2 s2).A := by
      funext i j
      show (galerkinUpdate cfg pt.1 pt.2 s1).A i j =
        (galerkinUpdate cfg pt.1 pt.2 s2).A i j
      dsimp only [galerkinUpdate]
      rw [hA]
    have hb' : (stabUpdate cfg pt.1 pt.2 (galerkinUpdate cfg pt.1 pt.2 s1)).b =
        (galerkinUpdate { cfg with stab := Stabilization.NONE } pt.1 pt.2 s2).b := by
      funext i
      show (galerkinUpdate cfg pt.1 pt.2 s1).b i = (galerkinUpdate cfg pt.1 pt.2 s2).b i
      dsimp only [galerkinUpdate]
      rw [hb]
    obtain ⟨g1, g2, g3, g4, g5, g6⟩ := ih
      (stabUpdate cfg pt.1 pt.2 (galerkinUpdate cfg pt.1 pt.2 s1))
      (galerkinUpdate { cfg with stab := Stabilization.NONE } pt.1 pt.2 s2) hA' hb'
    exact ⟨g1, g2, g3, g4, g5, g6⟩

/-- C5: for every element (any initial size/index, zero-initialized local
state) and every sequence of interior-point evaluations, a pass under any
stabilization mode other than NONE (SUPG, GLS, MS) with the advection field
set succeeds, the corresponding NONE pass succeeds, and the base element
matrix and vector obtained by finalizing the stabilized pass with the
stabilization parameter forced to `0` are exactly the matrix and vector
produced by the NONE pass (whatever tau the NONE finalizer computes). -/
theorem stab_tau_zero_matches_none {nen n : ℕ} (cfg : Config n)
    (u : (Fin n → ℝ) → Fin n → ℝ)
    (pts : List (FiniteElement nen n × (Fin n → ℝ))) (hk0 : ℝ) (iEl0 : ℕ)
    (tauE : List ℝ) (hU : cfg.Uad = some u) (hs : cfg.stab ≠ Stabilization.NONE) :
    (runPts cfg pts (initEI nen n hk0 iEl0)).1 = true ∧
    (runPts { cfg with stab := Stabilization.NONE } pts (initEI nen n hk0 iEl0)).1
      = true ∧
    (blendStab 0 (runPts cfg pts (initEI nen n hk0 iEl0)).2).A =
      (finalizeElement { cfg with stab := Stabilization.NONE } tauE
        (runPts { cfg with stab := Stabilization.NONE } pts
          (initEI nen n hk0 iEl0)).2).2.1.A ∧
    (blendStab 0 (runPts cfg pts (initEI nen n hk0 iEl0)).2).b =
      (finalizeElement { cfg with stab := Stabilization.NONE } tauE
        (runPts { cfg with stab := Stabilization.NONE } pts
          (initEI nen n hk0 iEl0)).2).2.1.b := by
  obtain ⟨g1, g2, g3, g4, g5, g6⟩ := runPts_base_invariant cfg u hU hs pts
    (initEI nen n hk0 iEl0) (initEI nen n hk0 iEl0) rfl rfl
  have hbzA : (blendStab 0 (runPts cfg pts (initEI nen n hk0 iEl0)).2).A =
      (runPts cfg pts (initEI nen n hk0 iEl0)).2.A := by
    funext i j; dsimp only [blendStab]; ring
  have hbzb : (blendStab 0 (runPts cfg pts (initEI nen n hk0 iEl0)).2).b =
      (runPts cfg pts (initEI nen n hk0 iEl0)).2.b := by
    funext i; dsimp only [blendStab]; ring
  refine ⟨g1, g2, ?_, ?_⟩
  · rw [hbzA, g3]
    unfold finalizeElement
    by_cases hI :
        (runPts { cfg with stab := Stabilization.NONE } pts
          (initEI nen n hk0 iEl0)).2.iEl > tauE.length
    · rw [if_pos hI]
    · rw [if_neg hI]
      funext i j
      dsimp only [blendStab]
      rw [g5]
      dsimp only [initEI]
      ring
  · rw [hbzb, g4]
    unfold finalizeElement
    by_cases hI :
        (runPts { cfg with stab := Stabilization.NONE } pts
          (initEI nen n hk0 iEl0)).2.iEl > tauE.length
    · rw [if_pos hI]
    · rw [if_neg hI]
      funext i
      dsimp only [blendStab]
      rw [g6]
      dsimp only [initEI]
      ring

/-- Witness for C5 at a concrete SUPG configuration and an empty point list. -/
theorem stab_tau_zero_matches_none_witness :
    (runPts cfgSUPG [] (initEI 1 1 0 0)).1 = true ∧
    (runPts { cfgSUPG with stab := Stabilization.NONE } [] (initEI 1 1 0 0)).1
      = true ∧
    (blendStab 0 (runPts cfgSUPG [] (initEI 1 1 0 0)).2).A =
      (finalizeElement { cfgSUPG with stab := Stabilization.NONE } []
        (runPts { cfgSUPG with stab := Stabilization.NONE } []
          (initEI 1 1 0 0)).2).2.1.A ∧
    (blendStab 0 (runPts cfgSUPG [] (initEI 1 1 0 0)).2).b =
      (finalizeElement { cfgSUPG with stab := Stabilization.NONE } []
        (runPts { cfgSUPG with stab := Stabilization.NONE } []
          (initEI 1 1 0 0)).2).2.1.b :=
  stab_tau_zero_matches_none cfgSUPG (fun _ => fun _ => 0) [] 0 0 [] rfl
    (by simp [cfgSUPG])

/-- C6: at every interior point, if the active stabilization mode is not NONE
and the advection field it requires is unset, `evalInt` returns `false` with
the element-local state unchanged (no partial side effect); in every other
configuration (NONE mode, or advection field set) it returns `true`. -/
theorem evalInt_required_field {nen n : ℕ} (cfg : Config n)
    (fe : FiniteElement nen n) (X : Fin n → ℝ) (s : ElementInfo nen n) :
    (cfg.stab ≠ Stabilization.NONE → cfg.Uad = none →
      evalInt cfg fe X s = (false, s)) ∧
    ((cfg.stab = Stabilization.NONE ∨ cfg.Uad ≠ none) →
      (evalInt cfg fe X s).1 = true) := by
  constructor
  · intro hs hU
    simp only [evalInt]
    rw [if_neg hs, if_pos (by simp [hU])]
  · intro h
    by_cases hstab : cfg.stab = Stabilization.NONE
    · simp only [evalInt]
      rw [if_pos hstab]
    · obtain ⟨u, hu⟩ := Option.ne_none_iff_exists'.mp (h.resolve_left hstab)
      rw [evalInt_eq_stab cfg fe X s u hstab hu]

/-- Witness for C6: SUPG with no advection field fails leaving the state
unchanged; the NONE configuration succeeds. -/
theorem evalInt_required_field_witness :
    evalInt cfgSUPGNoU feOne ![0] (initEI 1 1 0 0) = (false, initEI 1 1 0 0) ∧
    (evalInt cfgNone feOne ![0] (initEI 1 1 0 0)).1 = true :=
  ⟨(evalInt_required_field cfgSUPGNoU feOne ![0] (initEI 1 1 0 0)).1
      (by simp [cfgSUPGNoU]) rfl,
   (evalInt_required_field cfgNone feOne ![0] (initEI 1 1 0 0)).2 (Or.inl rfl)⟩

/-- C7: when the element index is a valid 1-based index into the declared tau
vector, `finalizeElement` succeeds, additively blends the stabilized matrix
`eMs` and vector `eSs` into the base matrix and vector weighted by the tau it
computes via `getTau`, persists that tau at index `iEl`, and a subsequent
`getElementTau iEl` returns exactly that tau. -/
theorem finalizeElement_blends_and_persists {nen n : ℕ} (cfg : Config n)
    (tauE : List ℝ) (s : ElementInfo nen n)
    (h1 : 1 ≤ s.iEl) (h2 : s.iEl ≤ tauE.length) :
    (finalizeElement cfg tauE s).1 = true ∧
    (finalizeElement cfg tauE s).2.1.A = (fun i j => s.A i j +
      getTau cfg.c1 cfg.c2 (elemVel s) s.hk cfg.kappa cfg.Cinv cfg.order
        * s.eMs i j) ∧
    (finalizeElement cfg tauE s).2.1.b = (fun i => s.b i +
      getTau cfg.c1 cfg.c2 (elemVel s) s.hk cfg.kappa cfg.Cinv cfg.order
        * s.eSs i) ∧
    (finalizeElement cfg tauE s).2.2 = storeTau tauE s.iEl
      (getTau cfg.c1 cfg.c2 (elemVel s) s.hk cfg.kappa cfg.Cinv cfg.order) ∧
    getElementTau (finalizeElement cfg tauE s).2.2 s.iEl =
      getTau cfg.c1 cfg.c2 (elemVel s) s.hk cfg.kappa cfg.Cinv cfg.order := by
  have hnot : ¬ s.iEl > tauE.length := by omega
  have hfe : finalizeElement cfg tauE s = (true,
      blendStab (getTau cfg.c1 cfg.c2 (elemVel s) s.hk cfg.kappa cfg.Cinv cfg.order) s,
      storeTau tauE s.iEl
        (getTau cfg.c1 cfg.c2 (elemVel s) s.hk cfg.kappa cfg.Cinv cfg.order)) := by
    unfold finalizeElement
    rw [if_neg hnot]
  rw [hfe]
  exact ⟨rfl, rfl, rfl, rfl, getElementTau_storeTau tauE s.iEl _ h1 h2⟩

/-- Witness for C7 at a concrete element with index 1 and a one-slot tau
vector. -/
theorem finalizeElement_blends_and_persists_witness :
    (finalizeElement cfgNone [0] (initEI 1 1 0 1)).1 = true ∧
    (finalizeElement cfgNone [0] (initEI 1 1 0 1)).2.1.A =
      (fun i j => (initEI 1 1 0 1).A i j +
        getTau cfgNone.c1 cfgNone.c2 (elemVel (initEI 1 1 0 1))
          (initEI 1 1 0 1).hk cfgNone.kappa cfgNone.Cinv cfgNone.order
          * (initEI 1 1 0 1).eMs i j) ∧
    (finalizeElement cfgNone [0] (initEI 1 1 0 1)).2.1.b =
      (fun i => (initEI 1 1 0 1).b i +
        getTau cfgNone.c1 cfgNone.c2 (elemVel (initEI 1 1 0 1))
          (initEI 1 1 0 1).hk cfgNone.kappa cfgNone.Cinv cfgNone.order
          * (initEI 1 1 0 1).eSs i) ∧
    (finalizeElement cfgNone [0] (initEI 1 1 0 1)).2.2 =
      storeTau [0] (initEI 1 1 0 1).iEl
        (getTau cfgNone.c1 cfgNone.c2 (elemVel (initEI 1 1 0 1))
          (initEI 1 1 0 1).hk cfgNone.kappa cfgNone.Cinv cfgNone.order) ∧
    getElementTau (finalizeElement cfgNone [0] (initEI 1 1 0 1)).2.2
        (initEI 1 1 0 1).iEl =
      getTau cfgNone.c1 cfgNone.c2 (elemVel (initEI 1 1 0 1))
        (initEI 1 1 0 1).hk cfgNone.kappa cfgNone.Cinv cfgNone.order :=
  finalizeElement_blends_and_persists cfgNone [0] (initEI 1 1 0 1)
    (by simp [initEI]) (by simp [initEI])

/-- C8: the weak-Dirichlet boundary accumulation with adjoint factor `γ = 1`
maps a symmetric element matrix to a symmetric element matrix (for all
inputs), while with `γ = 0` a concrete single-element one-dimensional
evaluation produces a non-symmetric element matrix. -/
theorem wd_gamma_symmetry :
    (∀ (nen n : ℕ) (w : WDConfig n) (fe : FiniteElement nen n)
      (X normal : Fin n → ℝ) (h : ℝ) (s : ElementInfo nen n),
      w.gamma = 1 → (∀ i j, s.A i j = s.A j i) →
      ∀ i j, (wdEvalBou w fe X normal h s).2.A i j =
        (wdEvalBou w fe X normal h s).2.A j i) ∧
    (wdEvalBou wdGamma0 feC8 ![0] ![1] 1 (initEI 2 1 0 0)).2.A 0 1 ≠
      (wdEvalBou wdGamma0 feC8 ![0] ![1] 1 (initEI 2 1 0 0)).2.A 1 0 := by
  constructor
  · intro nen n w fe X normal h s hg hsym i j
    obtain ⟨CBI, gamma, kappa, U, g⟩ := w
    cases U with
    | none => exact hsym i j
    | some u =>
      cases g with
      | none => exact hsym i j
      | some gf =>
        have hg' : gamma = 1 := hg
        subst hg'
        dsimp only [wdEvalBou]
        rw [hsym i j]
        ring
  · have h01 : (wdEvalBou wdGamma0 feC8 ![0] ![1] 1 (initEI 2 1 0 0)).2.A 0 1 = 3 := by
      dsimp only [wdEvalBou, wdGamma0, feC8, initEI]
      rw [Fin.sum_univ_one, Fin.sum_univ_one]
      norm_num
    have h10 : (wdEvalBou wdGamma0 feC8 ![0] ![1] 1 (initEI 2 1 0 0)).2.A 1 0 = 2 := by
      dsimp only [wdEvalBou, wdGamma0, feC8, initEI]
      rw [Fin.sum_univ_one, Fin.sum_univ_one]
      norm_num
    rw [h01, h10]
    norm_num

/-- Witness for C8: the symmetric half applied to the concrete `γ = 1`
configuration on the same single-element data. -/
theorem wd_gamma_symmetry_witness :
    (wdEvalBou wdGamma1 feC8 ![0] ![1] 1 (initEI 2 1 0 0)).2.A 0 1 =
      (wdEvalBou wdGamma1 feC8 ![0] ![1] 1 (initEI 2 1 0 0)).2.A 1 0 :=
  wd_gamma_symmetry.1 2 1 wdGamma1 feC8 ![0] ![1] 1 (initEI 2 1 0 0) rfl
    (fun _ _ => rfl) 0 1

/-- Witness for C10 at a concrete configuration, `fld = 1` and `fld = 2`. -/
theorem getNoFields_cases_witness :
    getNoFields (n := 3)
      ⟨Stabilization.NONE, 1, 1, 1, 1, 1, none, none, none⟩ 1 = 1 ∧
    getNoFields (n := 3)
      ⟨Stabilization.NONE, 1, 1, 1, 1, 1, none, none, none⟩ 2 = 3 :=
  ⟨(getNoFields_cases _ 1).1 (by norm_num), (getNoFields_cases _ 2).2 (by norm_num)⟩

end AD
